import Mathlib

/-!
Shallow embedding of the ggraph library (package ggraph, file ggraph.go):
a generic directed adjacency-list graph with a map from node values to
dense integer indices, a per-index adjacency table, and a DTO conversion
used for serialization.

Modelling conventions.

* The Go map `nodes map[T]int` is modelled as an association list in
  insertion order with distinct keys on reachable states.  Map iteration
  order in Go is unspecified and randomized; operations whose result
  depends on the iteration order (ToDTO) therefore take the enumeration
  order as an explicit parameter, restricted in the theorems to
  permutations of the key list.  Operations whose result does not depend
  on the order (Nodes, the reverse index-to-node scan) use the canonical
  insertion order.

* Two capacity models are used, because AddNode tests
  `index >= cap(g.adj)` and Go fixes the capacity only up to
  `cap >= len`.  The type Graph with AddNode/AddEdge uses a simplified
  convention cap = len, under which the pad test reads
  `g.adj.length ≤ index`; its slice lengths coincide with the standard
  runtime's for every graph of at most 15 nodes (the first divergence is
  the 16th AddNode), and every theorem below that evaluates this model
  does so on graphs of at most two nodes.  The type GraphC with
  AddNodeC/AddEdgeC additionally carries the capacity of the adjacency
  slice and updates it exactly as the standard Go runtime (gc, 64-bit)
  does for a [][]int: nextslicecap (the requested length if it exceeds
  double the old capacity, else doubling below the 256 threshold)
  followed by rounding the byte size (24 bytes per element) up to a
  malloc size class.  This makes the under-padded states reachable —
  e.g. sixteen nodes over a 15-row adjacency slice, because the append
  at the eighth node returns capacity 16 — and AddEdgeC returns none for
  the out-of-range adjacency write the program then performs (a panic).
  The size-class rounding used here matches all Go versions for
  allocations of at most 512 bytes, and every state evaluated in the
  theorems stays at or below 360 bytes.

* A Go runtime panic (slice index out of range) is modelled by `none`:
  functions that can fault return `Option`.  On well-formed states the
  reverse lookup `idxToNode g i` is `some` exactly when some node holds
  index `i`, which coincides with `i < len(nodes)`, the in-range
  condition of the Go slice `indexToNode`.

* Machine integers (int indices and counts) stay far below 2^63 in every
  statement here, so they are modelled as `Nat`.
-/

namespace GGraph

/-- Go `type Edge[T comparable] struct { From T; To T }`. -/
structure Edge (T : Type) where
  From : T
  To : T
deriving DecidableEq

/-- Go `type Graph[T comparable] struct { nodes map[T]int; adj [][]int }`. -/
structure Graph (T : Type) where
  nodes : List (T × Nat)
  adj : List (List Nat)
deriving DecidableEq

/-- Go `type GraphDTO struct { Nodes []any; Adj [][]int }`.  The element
type of Nodes is kept as a parameter; the claims only concern values that
survive the interchange encoding. -/
structure GraphDTO (T : Type) where
  Nodes : List T
  Adj : List (List Nat)
deriving DecidableEq

variable {T : Type} [DecidableEq T]

/-- Reading the Go map: `idx, ok := g.nodes[v]` as an option. -/
def mapLookup : List (T × Nat) → T → Option Nat
  | [], _ => none
  | p :: rest, v => if p.1 = v then some p.2 else mapLookup rest v

/-- Go `func NewGraph[T comparable]() *Graph[T]`. -/
def NewGraph : Graph T := ⟨[], []⟩

/-- Go `func (g *Graph[T]) HasNode(node T) bool`. -/
def HasNode (g : Graph T) (v : T) : Bool :=
  (mapLookup g.nodes v).isSome

/-- Go `func (g *Graph[T]) AddNode(node T)`.  If the node exists the call
is a no-op; otherwise it gets index `len(g.nodes)` and, when
`index >= cap(g.adj)` (capacity simplified to the length here; AddNodeC
below carries the runtime capacity exactly), the adjacency slice is
extended by `append(g.adj, make([][]int, index+1)...)`, i.e. by
`index+1` empty rows. -/
def AddNode (g : Graph T) (v : T) : Graph T :=
  if (mapLookup g.nodes v).isSome then g
  else
    { nodes := g.nodes ++ [(v, g.nodes.length)],
      adj :=
        if g.adj.length ≤ g.nodes.length then
          g.adj ++ List.replicate (g.nodes.length + 1) ([] : List Nat)
        else g.adj }

/-- Go `func (g *Graph[T]) AddEdge(from, to T)`: add both endpoints, then
`g.adj[fromIndex] = append(g.adj[fromIndex], toIndex)`.  (`from` is a Lean
keyword, so the parameters are named `f` and `t`.)  Under the simplified
capacity convention of this Graph type the written index stays in range,
so `List.set`/`getD` coincide with the Go slice update; the out-of-range
write that the runtime's real capacities make reachable — a panic — is
modelled by AddEdgeC below. -/
def AddEdge (g : Graph T) (f t : T) : Graph T :=
  let g2 := AddNode (AddNode g f) t
  let fromIndex := (mapLookup g2.nodes f).getD 0
  let toIndex := (mapLookup g2.nodes t).getD 0
  { g2 with adj := g2.adj.set fromIndex (g2.adj.getD fromIndex [] ++ [toIndex]) }

/-- Go `func (g *Graph[T]) NodeCount() int` = `len(g.nodes)`. -/
def NodeCount (g : Graph T) : Nat := g.nodes.length

/-- Go `func (g *Graph[T]) EdgeCount() int`: sum of the row lengths of the
adjacency table. -/
def EdgeCount (g : Graph T) : Nat := (g.adj.map List.length).sum

/-- Go `func (g *Graph[T]) Nodes() []T` (map order unspecified; canonical
insertion order here). -/
def Nodes (g : Graph T) : List T := g.nodes.map Prod.fst

/-- Go `func (g *Graph[T]) HasEdge(from, to T) bool`: false if either
endpoint is missing, else `slices.Contains(g.adj[fromIndex], toIndex)`.
At a capacity-starved state the program's read `g.adj[fromIndex]` would
panic where `getD` yields []; no theorem below evaluates HasEdge at such
a state. -/
def HasEdge (g : Graph T) (f t : T) : Bool :=
  if HasNode g f && HasNode g t then
    decide ((mapLookup g.nodes t).getD 0 ∈ g.adj.getD ((mapLookup g.nodes f).getD 0) [])
  else false

/-- The reverse scan `for node, idx := range g.nodes { if idx == i ... }`:
the unique node holding index `i`, if any. -/
def idxToNode (g : Graph T) (i : Nat) : Option T :=
  (g.nodes.find? (fun p => p.2 == i)).map Prod.fst

/-- Go `func (g *Graph[T]) Neighbors(node T) []T`.  A missing key reads as
the zero value 0, and `g.adj[index]` is an out-of-range panic (`none`)
when `index ≥ len(g.adj)`.  Each neighbour index is resolved by a linear
scan of the map, skipping (not faulting on) indices held by no node. -/
def Neighbors (g : Graph T) (v : T) : Option (List T) :=
  match g.adj.get? ((mapLookup g.nodes v).getD 0) with
  | none => none
  | some row => some (row.filterMap (idxToNode g))

/-- Inner loop of Go `Edges()` over one adjacency row; `indexToNode[to]`
out of range is a panic (`none`). -/
def edgesRowAux (g : Graph T) (fn : T) : List Nat → List (Edge T) → Option (List (Edge T))
  | [], acc => some acc
  | j :: rest, acc =>
    match idxToNode g j with
    | none => none
    | some tn => edgesRowAux g fn rest (acc ++ [⟨fn, tn⟩])

/-- Outer loop of Go `Edges()` over `g.adj` with its index;
`indexToNode[from]` out of range is a panic (`none`). -/
def edgesAux (g : Graph T) : List (Nat × List Nat) → List (Edge T) → Option (List (Edge T))
  | [], acc => some acc
  | (i, row) :: rest, acc =>
    match idxToNode g i with
    | none => none
    | some fn =>
      match edgesRowAux g fn row acc with
      | none => none
      | some acc2 => edgesAux g rest acc2

/-- Go `func (g *Graph[T]) Edges() []Edge[T]`: walk the whole adjacency
slice (including any rows beyond `len(nodes)`) and resolve indices through
the length-`len(nodes)` reverse array, whose out-of-range accesses
panic. -/
def Edges (g : Graph T) : Option (List (Edge T)) :=
  edgesAux g g.adj.enum []

/-- Go `func (g *Graph[T]) ToDTO() *GraphDTO`: Nodes is filled by a
`range` loop over the map — iteration order unspecified, hence the
explicit `order` parameter — and Adj is the adjacency slice as stored. -/
def ToDTO (g : Graph T) (order : List T) : GraphDTO T :=
  ⟨order, g.adj⟩

/-- Inner loop of Go `NewGraphByDTO` over one adjacency row `i`: an edge
is added only when `neighborIndex < len(dto.Nodes)`; in that case
`dto.Nodes[i]` is read, which panics (`none`) when `i` is out of range. -/
def addRowEdges (N : List T) (i : Nat) : List Nat → Graph T → Option (Graph T)
  | [], g => some g
  | j :: rest, g =>
    if j < N.length then
      match N.get? i, N.get? j with
      | some fi, some tj => addRowEdges N i rest (AddEdge g fi tj)
      | _, _ => none
    else addRowEdges N i rest g

/-- Outer loop of Go `NewGraphByDTO` over `dto.Adj` with its index. -/
def addAllEdges (N : List T) : List (Nat × List Nat) → Graph T → Option (Graph T)
  | [], g => some g
  | (i, row) :: rest, g =>
    match addRowEdges N i row g with
    | none => none
    | some g1 => addAllEdges N rest g1

/-- Go `func NewGraphByDTO(dto *GraphDTO) *Graph[any]`: add every DTO node
in order, then add edges row by row. -/
def NewGraphByDTO (dto : GraphDTO T) : Option (Graph T) :=
  addAllEdges dto.Nodes dto.Adj.enum (dto.Nodes.foldl AddNode NewGraph)

/-- One mutating call of the public construction API. -/
inductive Op (T : Type) where
  | addNode (v : T)
  | addEdge (f t : T)
deriving DecidableEq

/-- Run a sequence of AddNode/AddEdge calls against a graph. -/
def run (g : Graph T) : List (Op T) → Graph T
  | [] => g
  | Op.addNode v :: rest => run (AddNode g v) rest
  | Op.addEdge f t :: rest => run (AddEdge g f t) rest

/-- The graph reached from the empty graph by a call sequence. -/
def build (ops : List (Op T)) : Graph T := run NewGraph ops

/-- Number of AddEdge calls in a call sequence. -/
def countAddEdges : List (Op T) → Nat
  | [] => 0
  | Op.addEdge _ _ :: rest => countAddEdges rest + 1
  | Op.addNode _ :: rest => countAddEdges rest

/-- Well-formedness of a graph state: the assigned indices are exactly
0,…,len(nodes)-1 in insertion order, keys are distinct, the adjacency
slice is at least as long as the node map, and every stored neighbour
index is an assigned index. -/
def WF (g : Graph T) : Prop :=
  g.nodes.map Prod.snd = List.range g.nodes.length ∧
  (g.nodes.map Prod.fst).Nodup ∧
  g.nodes.length ≤ g.adj.length ∧
  ∀ row ∈ g.adj, ∀ j ∈ row, j < g.nodes.length

/-! The capacity-exact model.  The Go program's padding decision in
AddNode reads cap(g.adj), so its behaviour depends on the capacities the
runtime's append returns.  The definitions below reproduce the standard
Go runtime (gc, 64-bit) for a [][]int slice: growslice picks
nextslicecap(newLen, oldCap) and then rounds the byte size
(24 bytes per []int element) up to a malloc size class, the resulting
byte count divided by 24 being the returned capacity. -/

/-- The malloc size classes of the gc runtime (class_to_size in
runtime/sizeclasses.go), in bytes. -/
def sizeClasses : List Nat :=
  [8, 16, 24, 32, 48, 64, 80, 96, 112, 128, 144, 160, 176, 192, 208, 224,
   240, 256, 288, 320, 352, 384, 416, 448, 480, 512, 576, 640, 704, 768,
   896, 1024, 1152, 1280, 1408, 1536, 1792, 2048, 2304, 2688, 3072, 3200,
   3456, 4096, 4864, 5376, 6144, 6528, 6784, 6912, 8192, 9472, 9728,
   10240, 10880, 12288, 13568, 14336, 16384, 18432, 19072, 20480, 21760,
   24576, 27264, 28672, 32768]

/-- runtime.roundupsize: a small allocation is rounded up to its size
class, a large one to a multiple of the 8192-byte page.  (Exact for
allocations of at most 512 bytes across Go versions; every state
evaluated in the theorems stays at or below 360 bytes.) -/
def roundupsize (s : Nat) : Nat :=
  match sizeClasses.find? (fun c => decide (s ≤ c)) with
  | some c => c
  | none => ((s + 8191) / 8192) * 8192

/-- The grow-by-a-quarter loop of runtime.nextslicecap for old
capacities at or above the 256 threshold (adds first, then tests), with
explicit fuel so the recursion is structural; the fuel is never
exhausted for the arguments growslice passes. -/
def capLoop : Nat → Nat → Nat → Nat
  | 0, cur, _ => cur
  | fuel + 1, cur, newLen =>
    let next := cur + (cur + 768) / 4
    if newLen ≤ next then next else capLoop fuel next newLen

/-- runtime.nextslicecap: the requested length if it exceeds double the
old capacity, else doubling below the 256 threshold, else the
quarter-growth loop. -/
def nextslicecap (newLen oldCap : Nat) : Nat :=
  if 2 * oldCap < newLen then newLen
  else if oldCap < 256 then 2 * oldCap
  else capLoop newLen oldCap newLen

/-- The capacity of the slice returned by append on a [][]int of
capacity oldCap once it must hold newLen elements of 24 bytes. -/
def growCap (oldCap newLen : Nat) : Nat :=
  roundupsize (24 * nextslicecap newLen oldCap) / 24

/-- Graph[T] together with cap(g.adj), tracked exactly as the standard
runtime computes it. -/
structure GraphC (T : Type) where
  nodes : List (T × Nat)
  adj : List (List Nat)
  adjCap : Nat
deriving DecidableEq

/-- NewGraph for the capacity-exact model: make([][]int, 0) has
capacity 0. -/
def NewGraphC : GraphC T := ⟨[], [], 0⟩

/-- AddNode with the runtime capacity: pad (and grow the capacity) only
when `index >= cap(g.adj)`; otherwise leave the adjacency slice — and in
particular its length — unchanged, which is how the under-padded states
arise. -/
def AddNodeC (g : GraphC T) (v : T) : GraphC T :=
  if (mapLookup g.nodes v).isSome then g
  else if g.adjCap ≤ g.nodes.length then
    { nodes := g.nodes ++ [(v, g.nodes.length)],
      adj := g.adj ++ List.replicate (g.nodes.length + 1) ([] : List Nat),
      adjCap := growCap g.adjCap (g.adj.length + (g.nodes.length + 1)) }
  else
    { nodes := g.nodes ++ [(v, g.nodes.length)], adj := g.adj, adjCap := g.adjCap }

/-- AddEdge with the runtime capacity: after ensuring both endpoints,
the write `g.adj[fromIndex] = append(g.adj[fromIndex], toIndex)` panics
(none) when fromIndex is not below len(g.adj). -/
def AddEdgeC (g : GraphC T) (f t : T) : Option (GraphC T) :=
  let g2 := AddNodeC (AddNodeC g f) t
  let fromIndex := (mapLookup g2.nodes f).getD 0
  let toIndex := (mapLookup g2.nodes t).getD 0
  if fromIndex < g2.adj.length then
    some { g2 with adj := g2.adj.set fromIndex (g2.adj.getD fromIndex [] ++ [toIndex]) }
  else none

/-- Forget the capacity, exposing the observable graph state. -/
def GraphC.toGraph (g : GraphC T) : Graph T := ⟨g.nodes, g.adj⟩

/-- Run a call sequence in the capacity-exact model; a panic aborts the
whole run. -/
def runC (g : GraphC T) : List (Op T) → Option (GraphC T)
  | [] => some g
  | Op.addNode v :: rest => runC (AddNodeC g v) rest
  | Op.addEdge f t :: rest =>
    match AddEdgeC g f t with
    | none => none
    | some g1 => runC g1 rest

/-! General list facts used below, proved by induction to keep the
development self-contained. -/

theorem mem_of_mem_set {α : Type} (l : List α) (i : Nat) (b a : α)
    (h : a ∈ l.set i b) : a ∈ l ∨ a = b := by
  induction l generalizing i with
  | nil => simp at h
  | cons x xs ih =>
    cases i with
    | zero =>
      rcases List.mem_cons.mp h with h1 | h1
      · exact Or.inr h1
      · exact Or.inl (List.mem_cons_of_mem _ h1)
    | succ n =>
      rcases List.mem_cons.mp h with h1 | h1
      · exact Or.inl (h1 ▸ List.mem_cons_self x xs)
      · rcases ih n h1 with h2 | h2
        · exact Or.inl (List.mem_cons_of_mem _ h2)
        · exact Or.inr h2

theorem getD_mem {α : Type} (l : List α) (i : Nat) (d : α)
    (h : i < l.length) : l.getD i d ∈ l := by
  induction l generalizing i with
  | nil => simp at h
  | cons x xs ih =>
    cases i with
    | zero => exact List.mem_cons_self x xs
    | succ n =>
      exact List.mem_cons_of_mem _ (ih n (by simp only [List.length_cons] at h; omega))

/-! Facts about mapLookup, the model of reading the Go node map. -/

theorem mapLookup_append_of_none (l1 l2 : List (T × Nat)) (v : T)
    (h : mapLookup l1 v = none) : mapLookup (l1 ++ l2) v = mapLookup l2 v := by
  induction l1 with
  | nil => rfl
  | cons p rest ih =>
    simp only [List.cons_append, mapLookup] at h ⊢
    by_cases hp : p.1 = v
    · rw [if_pos hp] at h; exact (Option.some_ne_none _ h).elim
    · rw [if_neg hp] at h ⊢; exact ih h

theorem mapLookup_append_of_isSome (l1 l2 : List (T × Nat)) (v : T)
    (h : (mapLookup l1 v).isSome = true) :
    mapLookup (l1 ++ l2) v = mapLookup l1 v := by
  induction l1 with
  | nil => simp [mapLookup] at h
  | cons p rest ih =>
    simp only [List.cons_append, mapLookup] at h ⊢
    by_cases hp : p.1 = v
    · rw [if_pos hp, if_pos hp]
    · rw [if_neg hp] at h
      rw [if_neg hp, if_neg hp]
      exact ih h

theorem mapLookup_some_mem (l : List (T × Nat)) (v : T) (i : Nat)
    (h : mapLookup l v = some i) : (v, i) ∈ l := by
  induction l with
  | nil => simp [mapLookup] at h
  | cons p rest ih =>
    obtain ⟨a, b⟩ := p
    simp only [mapLookup] at h
    by_cases hp : a = v
    · rw [if_pos hp] at h
      injection h with h'
      subst hp; subst h'
      exact List.mem_cons_self _ _
    · rw [if_neg hp] at h
      exact List.mem_cons_of_mem _ (ih h)

theorem mapLookup_none_not_mem (l : List (T × Nat)) (v : T)
    (h : mapLookup l v = none) : v ∉ l.map Prod.fst := by
  induction l with
  | nil => simp
  | cons p rest ih =>
    obtain ⟨a, b⟩ := p
    simp only [mapLookup] at h
    by_cases hp : a = v
    · rw [if_pos hp] at h; cases h
    · rw [if_neg hp] at h
      simp only [List.map_cons, List.mem_cons]
      rintro (h1 | h1)
      · exact hp h1.symm
      · exact ih h h1

theorem mapLookup_idx_lt (g : Graph T) (hWF : WF g) (v : T) (i : Nat)
    (h : mapLookup g.nodes v = some i) : i < g.nodes.length := by
  have hmem : (v, i) ∈ g.nodes := mapLookup_some_mem _ _ _ h
  have hm2 : i ∈ g.nodes.map Prod.snd := List.mem_map_of_mem Prod.snd hmem
  rw [hWF.1] at hm2
  exact List.mem_range.mp hm2

/-! Facts about AddNode. -/

theorem AddNode_of_present (g : Graph T) (v : T)
    (h : (mapLookup g.nodes v).isSome = true) : AddNode g v = g := by
  unfold AddNode
  rw [if_pos h]

theorem AddNode_nodes_of_absent (g : Graph T) (v : T)
    (h : mapLookup g.nodes v = none) :
    (AddNode g v).nodes = g.nodes ++ [(v, g.nodes.length)] := by
  unfold AddNode
  rw [if_neg (by simp [h])]

theorem AddNode_adj_of_absent (g : Graph T) (v : T)
    (h : mapLookup g.nodes v = none) :
    (AddNode g v).adj =
      if g.adj.length ≤ g.nodes.length then
        g.adj ++ List.replicate (g.nodes.length + 1) ([] : List Nat)
      else g.adj := by
  unfold AddNode
  rw [if_neg (by simp [h])]

theorem mapLookup_AddNode_self (g : Graph T) (v : T) :
    (mapLookup (AddNode g v).nodes v).isSome = true := by
  cases hm : mapLookup g.nodes v with
  | some i => rw [AddNode_of_present g v (by simp [hm])]; simp [hm]
  | none =>
    rw [AddNode_nodes_of_absent g v hm, mapLookup_append_of_none _ _ _ hm]
    simp [mapLookup]

theorem mapLookup_AddNode_preserve (g : Graph T) (v w : T)
    (h : (mapLookup g.nodes w).isSome = true) :
    mapLookup (AddNode g v).nodes w = mapLookup g.nodes w := by
  cases hm : mapLookup g.nodes v with
  | some i => rw [AddNode_of_present g v (by simp [hm])]
  | none =>
    rw [AddNode_nodes_of_absent g v hm]
    exact mapLookup_append_of_isSome _ _ _ h

theorem WF_AddNode (g : Graph T) (v : T) (h : WF g) : WF (AddNode g v) := by
  obtain ⟨h1, h2, h3, h4⟩ := h
  cases hm : mapLookup g.nodes v with
  | some _ => rw [AddNode_of_present g v (by simp [hm])]; exact ⟨h1, h2, h3, h4⟩
  | none =>
    have hnod := AddNode_nodes_of_absent g v hm
    have hadj := AddNode_adj_of_absent g v hm
    have hv : v ∉ g.nodes.map Prod.fst := mapLookup_none_not_mem _ _ hm
    refine ⟨?_, ?_, ?_, ?_⟩
    · rw [hnod]
      simp only [List.map_append, List.map_cons, List.map_nil, List.length_append,
        List.length_cons, List.length_nil]
      rw [h1, List.range_succ]
    · rw [hnod]
      simp only [List.map_append, List.map_cons, List.map_nil]
      rw [List.nodup_append]
      refine ⟨h2, List.nodup_singleton _, ?_⟩
      intro x hx hx'
      rw [List.mem_singleton] at hx'
      exact hv (hx' ▸ hx)
    · rw [hnod, hadj]
      simp only [List.length_append, List.length_cons, List.length_nil]
      by_cases hle : g.adj.length ≤ g.nodes.length
      · rw [if_pos hle]
        simp only [List.length_append, List.length_replicate]
        omega
      · rw [if_neg hle]
        omega
    · rw [hnod, hadj]
      by_cases hle : g.adj.length ≤ g.nodes.length
      · rw [if_pos hle]
        intro row hrow j hj
        simp only [List.length_append, List.length_cons, List.length_nil]
        rcases List.mem_append.mp hrow with hr | hr
        · have := h4 row hr j hj; omega
        · rw [List.eq_of_mem_replicate hr] at hj
          simp at hj
      · rw [if_neg hle]
        intro row hrow j hj
        simp only [List.length_append, List.length_cons, List.length_nil]
        have := h4 row hrow j hj; omega

/-! Facts about AddEdge.  The central lemma names the two indices resolved
by the map reads and exposes the adjacency update as a List.set. -/

theorem AddEdge_spec (g : Graph T) (f t : T) (h : WF g) :
    ∃ fi ti,
      mapLookup (AddNode (AddNode g f) t).nodes f = some fi ∧
      mapLookup (AddNode (AddNode g f) t).nodes t = some ti ∧
      fi < (AddNode (AddNode g f) t).nodes.length ∧
      ti < (AddNode (AddNode g f) t).nodes.length ∧
      (AddEdge g f t).nodes = (AddNode (AddNode g f) t).nodes ∧
      (AddEdge g f t).adj = (AddNode (AddNode g f) t).adj.set fi
        ((AddNode (AddNode g f) t).adj.getD fi [] ++ [ti]) := by
  have hWF2 : WF (AddNode (AddNode g f) t) := WF_AddNode _ _ (WF_AddNode _ _ h)
  have hf1 : (mapLookup (AddNode g f).nodes f).isSome = true := mapLookup_AddNode_self g f
  have hf2eq : mapLookup (AddNode (AddNode g f) t).nodes f = mapLookup (AddNode g f).nodes f :=
    mapLookup_AddNode_preserve _ _ _ hf1
  have hf : (mapLookup (AddNode (AddNode g f) t).nodes f).isSome = true := by
    rw [hf2eq]; exact hf1
  have ht : (mapLookup (AddNode (AddNode g f) t).nodes t).isSome = true :=
    mapLookup_AddNode_self _ t
  obtain ⟨fi, hfi⟩ := Option.isSome_iff_exists.mp hf
  obtain ⟨ti, hti⟩ := Option.isSome_iff_exists.mp ht
  have hadj : (AddEdge g f t).adj = (AddNode (AddNode g f) t).adj.set
      ((mapLookup (AddNode (AddNode g f) t).nodes f).getD 0)
      ((AddNode (AddNode g f) t).adj.getD
        ((mapLookup (AddNode (AddNode g f) t).nodes f).getD 0) []
        ++ [(mapLookup (AddNode (AddNode g f) t).nodes t).getD 0]) := rfl
  rw [hfi, hti] at hadj
  simp only [Option.getD_some] at hadj
  exact ⟨fi, ti, hfi, hti, mapLookup_idx_lt _ hWF2 _ _ hfi,
    mapLookup_idx_lt _ hWF2 _ _ hti, rfl, hadj⟩

theorem WF_AddEdge (g : Graph T) (f t : T) (h : WF g) : WF (AddEdge g f t) := by
  have hWF2 : WF (AddNode (AddNode g f) t) := WF_AddNode _ _ (WF_AddNode _ _ h)
  obtain ⟨h1, h2, h3, h4⟩ := hWF2
  obtain ⟨fi, ti, hfi, hti, hfilt, htilt, hnodes, hadj⟩ := AddEdge_spec g f t h
  refine ⟨?_, ?_, ?_, ?_⟩
  · rw [hnodes]; exact h1
  · rw [hnodes]; exact h2
  · rw [hnodes, hadj, List.length_set]; exact h3
  · rw [hnodes, hadj]
    intro row hrow j hj
    rcases mem_of_mem_set _ _ _ _ hrow with hr | hr
    · exact h4 row hr j hj
    · rw [hr] at hj
      rcases List.mem_append.mp hj with hjj | hjj
      · exact h4 _ (getD_mem _ _ _ (lt_of_lt_of_le hfilt h3)) j hjj
      · rw [List.mem_singleton] at hjj
        rw [hjj]
        exact htilt

/-! Reachable states. -/

omit [DecidableEq T] in
theorem WF_NewGraph : WF (NewGraph (T := T)) := by
  refine ⟨rfl, List.nodup_nil, Nat.le_refl 0, ?_⟩
  intro row hrow
  exact absurd hrow (List.not_mem_nil row)

theorem WF_run (g : Graph T) (ops : List (Op T)) (h : WF g) : WF (run g ops) := by
  induction ops generalizing g with
  | nil => exact h
  | cons op rest ih =>
    cases op with
    | addNode v => exact ih _ (WF_AddNode _ _ h)
    | addEdge f t => exact ih _ (WF_AddEdge _ _ _ h)

theorem WF_build (ops : List (Op T)) : WF (build ops) :=
  WF_run _ _ WF_NewGraph

/-! Settled claims. -/

/-- Claim C1 (refuted on the code).  The round-trip import(export(g)) is
not structurally equivalent to g for every admissible map enumeration
order: for the graph built by addEdge(1,2), exporting under the
enumeration order [2,1] — a permutation of the node set, so a legitimate
Go map iteration order — and importing yields a graph that still has
node 1 but whose only edge is 2→1, so hasEdge(1,2) is false even though
it is true in the original graph. -/
theorem dto_roundtrip_loses_edge :
    List.Perm [2, 1] (Nodes (build [Op.addEdge (1 : Nat) 2])) ∧
    HasEdge (build [Op.addEdge (1 : Nat) 2]) 1 2 = true ∧
    NewGraphByDTO (ToDTO (build [Op.addEdge (1 : Nat) 2]) [2, 1]) =
      some ⟨[(2, 0), (1, 1)], [[1], [], []]⟩ ∧
    HasEdge (⟨[(2, 0), (1, 1)], [[1], [], []]⟩ : Graph Nat) 1 2 = false ∧
    HasNode (⟨[(2, 0), (1, 1)], [[1], [], []]⟩ : Graph Nat) 1 = true := by
  refine ⟨by decide, by decide, by decide, by decide, by decide⟩

/-- Claim C2 (refuted on the code).  The DTO produced by ToDTO is not
internally consistent: for the graph built by addEdge(1,2) exported under
the admissible enumeration order [2,1], the DTO is
(Nodes = [2,1], Adj = [[1],[],[]]); its entry Adj[0] = [1] alleges an edge
from Nodes[0] = 2 to Nodes[1] = 1, but the graph has no edge 2→1 (its only
edge is 1→2), and the adjacency table has 3 entries against 2 nodes, so
the two sequences are not index-aligned. -/
theorem toDTO_inconsistent :
    List.Perm [2, 1] (Nodes (build [Op.addEdge (1 : Nat) 2])) ∧
    ToDTO (build [Op.addEdge (1 : Nat) 2]) [2, 1] = ⟨[2, 1], [[1], [], []]⟩ ∧
    HasEdge (build [Op.addEdge (1 : Nat) 2]) 2 1 = false ∧
    HasEdge (build [Op.addEdge (1 : Nat) 2]) 1 2 = true ∧
    (ToDTO (build [Op.addEdge (1 : Nat) 2]) [2, 1]).Adj.length ≠
      (ToDTO (build [Op.addEdge (1 : Nat) 2]) [2, 1]).Nodes.length := by
  refine ⟨by decide, by decide, by decide, by decide, by decide⟩

/-- Claim C3 (refuted on the code).  Neighbors of an absent node is not an
empty sequence: on the empty graph the lookup reads index 0 (the Go zero
value) and g.adj[0] is an out-of-range access, a fault (modelled none);
on the graph built by addEdge(1,2) the same zero-value read returns the
neighbours of the node with index 0, i.e. the nonempty list [2]. -/
theorem neighbors_absent_node_faults :
    Neighbors (NewGraph (T := Nat)) 999 = none ∧
    HasNode (NewGraph (T := Nat)) 999 = false ∧
    Neighbors (build [Op.addEdge (1 : Nat) 2]) 999 = some [2] ∧
    HasNode (build [Op.addEdge (1 : Nat) 2]) 999 = false := by
  refine ⟨by decide, by decide, by decide, by decide⟩

/-- Claim C4 (refuted on the code).  Not every core operation is total:
on the reachable two-node graph built by addEdge(1,2) the adjacency slice
has three entries while the reverse array indexToNode built by Edges()
has length two, so the enumeration reads indexToNode[2] out of range and
faults (modelled none). -/
theorem edges_enumeration_faults :
    Edges (build [Op.addEdge (1 : Nat) 2]) = none ∧
    NodeCount (build [Op.addEdge (1 : Nat) 2]) = 2 ∧
    (build [Op.addEdge (1 : Nat) 2]).adj.length = 3 := by
  refine ⟨by decide, by decide, by decide⟩

/-- Claim C5 (refuted on the code).  len(nodes) == len(adjacency) is not
an invariant: on the state reached by addNode(1); addNode(2) the node
map has 2 entries but the adjacency slice has 3, because AddNode pads it
by index+1 rows at once.  (Under the standard runtime's capacities the
lengths also diverge in the opposite direction: the under-padded
sixteen-node state evaluated in the C7 and C9 theorems below has a
15-row adjacency slice, so no inequality between the two lengths is an
invariant either.) -/
theorem nodeCount_ne_adjacency_length_cex :
    NodeCount (build [Op.addNode (1 : Nat), Op.addNode 2]) = 2 ∧
    (build [Op.addNode (1 : Nat), Op.addNode 2]).adj.length = 3 ∧
    NodeCount (build [Op.addNode (1 : Nat), Op.addNode 2]) ≠
      (build [Op.addNode (1 : Nat), Op.addNode 2]).adj.length := by
  refine ⟨by decide, by decide, by decide⟩

/-- Claim C6 (refuted on the code).  NewGraphByDTO does not tolerate
every DTO silently: the code guards only the neighbour index j
(`neighborIndex < len(dto.Nodes)`), never the row index i, so for the
DTO with Nodes = [5] and Adj = [[],[0]], row 1 holds the in-range
neighbour index 0 and the code evaluates dto.Nodes[1], which is out of
range — a fault (modelled none), not a silent skip. -/
theorem newGraphByDTO_fault_cex :
    NewGraphByDTO (⟨[5], [[], [0]]⟩ : GraphDTO Nat) = none := by decide

/-- Claim C7 (refuted on the code).  addEdge does not establish its edge
regardless of prior state: under the standard runtime's capacities,
sixteen addNode calls reach a state with a 15-row adjacency slice under
16 nodes and capacity 16 (the append at the eighth node returned
capacity 16, so the sixteenth node's index 15 did not trigger the pad),
and addEdge from the sixteenth node — both endpoints already present —
writes g.adj[15] out of range and panics (none), establishing no
hasEdge/hasNode facts at all. -/
theorem addEdge_16th_node_faults :
    (runC (NewGraphC (T := Nat)) ((List.range 16).map Op.addNode)).map
      (fun g => (g.nodes.length, g.adj.length, g.adjCap)) = some (16, 15, 16) ∧
    (runC (NewGraphC (T := Nat)) ((List.range 16).map Op.addNode)).map
      (fun g => ((mapLookup g.nodes 15).isSome, (mapLookup g.nodes 0).isSome)) =
      some (true, true) ∧
    (runC (NewGraphC (T := Nat)) ((List.range 16).map Op.addNode)).bind
      (fun g => AddEdgeC g 15 0) = none := by
  refine ⟨by decide, by decide, by decide⟩

/-- Claim C8 (confirmed).  addNode is idempotent: a second addNode(v) on
any state is a no-op, so the whole state — in particular nodeCount, the
node values and the full edge structure — is identical to the state after
a single call. -/
theorem addNode_idem (g : Graph T) (v : T) :
    AddNode (AddNode g v) v = AddNode g v ∧
    NodeCount (AddNode (AddNode g v) v) = NodeCount (AddNode g v) ∧
    Nodes (AddNode (AddNode g v) v) = Nodes (AddNode g v) ∧
    Edges (AddNode (AddNode g v) v) = Edges (AddNode g v) := by
  have h : AddNode (AddNode g v) v = AddNode g v :=
    AddNode_of_present _ _ (mapLookup_AddNode_self g v)
  exact ⟨h, by rw [h], by rw [h], by rw [h]⟩

/-- Claim C9 (refuted on the code).  edgeCount does not equal the number
of addEdge calls for every call sequence: the sequence of sixteen
addNode calls followed by one addEdge from the sixteenth node crashes
(out-of-range write at g.adj[15] under the standard runtime's
capacities) instead of reaching a state with edge count 1; the spec's
concrete scenario addEdge(1,2); addEdge(2,1), which stays inside the
well-padded region, does yield nodeCount 2 and edgeCount 2. -/
theorem edgeCount_crash_cex :
    runC (NewGraphC (T := Nat))
      ((List.range 16).map Op.addNode ++ [Op.addEdge 15 0]) = none ∧
    countAddEdges ((List.range 16).map Op.addNode ++ [Op.addEdge (15 : Nat) 0]) = 1 ∧
    (runC (NewGraphC (T := Nat)) [Op.addEdge 1 2, Op.addEdge 2 1]).map
      (fun g => (NodeCount g.toGraph, EdgeCount g.toGraph)) = some (2, 2) := by
  refine ⟨by decide, by decide, by decide⟩

/-- Claim C10 (confirmed).  On every reachable state, every integer in
any adjacency entry is an assigned node index: it is smaller than
nodeCount (and at least 0 since indices are naturals). -/
theorem adjacency_indices_in_range (ops : List (Op T)) :
    ∀ row ∈ (build ops).adj, ∀ j ∈ row, j < NodeCount (build ops) :=
  (WF_build ops).2.2.2

/-- Witness for C10 at the graph built by addEdge(1,2): its adjacency row
[1] contains the index 1, which is below the node count 2. -/
theorem adjacency_indices_in_range_witness :
    [1] ∈ (build [Op.addEdge (1 : Nat) 2]).adj ∧ (1 : Nat) ∈ [1] ∧
      1 < NodeCount (build [Op.addEdge (1 : Nat) 2]) :=
  ⟨by decide, by decide,
    adjacency_indices_in_range [Op.addEdge 1 2] [1] (by decide) 1 (by decide)⟩

end GGraph
